import Mathlib

/-!
# ParkPing availability-window engine: a shallow embedding

This file embeds the availability-window engine of the ParkPing
repository in Lean 4 and proves properties of the embedded operations.

Modelling conventions:
* Calendar dates are day numbers (`Int`): the source normalizes every
  `Date` to local midnight before comparing (`normalizeDate`), so at day
  granularity a date is just an integer and `normalizeDate` is the
  identity; `addDays d n` is `d + n`.
* `Availability` mirrors `src/types.ts` (`id`, `spotId`, `startDate`,
  `endDate`, `claimedById`). The `id` is an opaque database key in the
  source (a string); here it is an opaque `Nat` drawn from a counter so
  that the store can generate fresh ids, as the backing database does.
* The persistence collaborator (`src/services/database.ts`) is embedded
  as a `Store`: a list of availability rows plus the id counter. Each
  exported database function becomes a pure function on `Store`; each
  call commits individually (there is no transaction in the source), so
  a sequence of calls yields a trace of committed states.
* User / principal ids stay `String` as in the source.
-/

/-- Mirror of the `Availability` interface in `src/types.ts`. -/
structure Availability where
  id : Nat
  spotId : Int
  startDate : Int
  endDate : Int
  claimedById : Option String
deriving DecidableEq, Repr

/-- The availability table of the persistence collaborator
(`src/services/database.ts`), with the fresh-id counter the backing
database uses to mint row ids. -/
structure Store where
  entries : List Availability
  nextId : Nat
deriving DecidableEq, Repr

namespace Db

/-- `createAvailability` of `src/services/database.ts`: inserts a row
with `claimed_by_id = null` and returns the created row. -/
def createAvailability (s : Store) (spotId : Int) (startDate endDate : Int) :
    Store × Availability :=
  let a : Availability :=
    { id := s.nextId, spotId := spotId, startDate := startDate,
      endDate := endDate, claimedById := none }
  (⟨s.entries ++ [a], s.nextId + 1⟩, a)

/-- `updateAvailability(id, { claimedById })` of
`src/services/database.ts`, restricted to the claimant column (the only
use the engine makes of it). -/
def updateAvailability (s : Store) (id : Nat) (claimedById : Option String) : Store :=
  ⟨s.entries.map fun a =>
      if a.id = id then { a with claimedById := claimedById } else a,
    s.nextId⟩

/-- `deleteAvailability` of `src/services/database.ts`. -/
def deleteAvailability (s : Store) (id : Nat) : Store :=
  ⟨s.entries.filter fun a => a.id ≠ id, s.nextId⟩

end Db

/-- Ids already in the store are older than the counter, so a freshly
minted id never collides with an existing row.  This holds for every
store the database can actually produce. -/
def Store.FreshIds (s : Store) : Prop :=
  ∀ a ∈ s.entries, a.id < s.nextId

instance (s : Store) : Decidable s.FreshIds := by
  unfold Store.FreshIds; infer_instance

/-- Row ids are unique (database primary key). -/
def Store.UniqueIds (s : Store) : Prop :=
  (s.entries.map Availability.id).Nodup

instance (s : Store) : Decidable s.UniqueIds := by
  unfold Store.UniqueIds; infer_instance

namespace AvailabilityManager

/-- The overlap test of
`AvailabilityManager.findOverlappingAvailability`
(`src/services/availabilityManager.ts`): same spot, and the inclusive
ranges intersect. -/
def overlaps (spotId : Int) (normalizedStart normalizedEnd : Int)
    (avail : Availability) : Bool :=
  avail.spotId = spotId ∧
    normalizedStart ≤ avail.endDate ∧ normalizedEnd ≥ avail.startDate

/-- `AvailabilityManager.findOverlappingAvailability`: the first entry
(in list order) whose spot matches and whose range intersects the
candidate range. -/
def findOverlappingAvailability (spotId : Int) (startDate endDate : Int)
    (availabilities : List Availability) : Option Availability :=
  availabilities.find? (overlaps spotId startDate endDate)

/-- Outcome of the claim-day operation: the source throws on the two
guard failures and otherwise runs the split. -/
inductive ClaimDayResult where
  | ok
  | cannotBeClaimed
  | dayNotWithinWindow
deriving DecidableEq, Repr

/-- `AvailabilityManager.handleClaimDay` (identical in substance to
`handleClaimDay` in `src/App.tsx`).  Returns the outcome together with
the trace of committed store states, one per database call made: the
source awaits `deleteAvailability`, `createAvailability` (claimed day),
`updateAvailability` (set claimant), and conditionally
`createAvailability` for the before and after remainders, each call
committing on its own. -/
def handleClaimDay (s : Store) (availabilityId : Nat) (dayToClaim : Int)
    (claimedById : String) : ClaimDayResult × List Store :=
  match s.entries.find? (fun entry => entry.id = availabilityId) with
  | none => (.cannotBeClaimed, [])
  | some target =>
    if target.claimedById.isSome then (.cannotBeClaimed, [])
    else
      let start := target.startDate
      let stop := target.endDate
      if dayToClaim < start ∨ dayToClaim > stop then (.dayNotWithinWindow, [])
      else
        -- Delete the original availability
        let s1 := Db.deleteAvailability s availabilityId
        -- Create the claimed day
        let (s2, claimedAvailability) :=
          Db.createAvailability s1 target.spotId dayToClaim dayToClaim
        let s3 := Db.updateAvailability s2 claimedAvailability.id (some claimedById)
        -- Create remaining availability before the claimed day
        let before : List Store :=
          if dayToClaim > start then
            [(Db.createAvailability s3 target.spotId start (dayToClaim - 1)).1]
          else []
        let s4 := before.getLastD s3
        -- Create remaining availability after the claimed day
        let after : List Store :=
          if dayToClaim < stop then
            [(Db.createAvailability s4 target.spotId (dayToClaim + 1) stop).1]
          else []
        (.ok, [s1, s2, s3] ++ before ++ after)

/-- The committed state after `handleClaimDay` finishes: the last state
of the trace (the unchanged store when no database call was made). -/
def claimDayFinal (s : Store) (availabilityId : Nat) (dayToClaim : Int)
    (claimedById : String) : ClaimDayResult × Store :=
  let r := handleClaimDay s availabilityId dayToClaim claimedById
  (r.1, r.2.getLastD s)

end AvailabilityManager

namespace App

/-- Outcome of `handleRequestMarkAvailable` in `src/App.tsx`:
either the window is created directly, or the request is rejected
because the first overlap found is claimed, or a confirmation dialog is
opened (carrying the id of the overlapping window) with no store change
yet. -/
inductive MarkAvailableResult where
  | created
  | overlapWithClaimed
  | needsConfirmation (overlappingId : Nat)
deriving DecidableEq, Repr

/-- `handleRequestMarkAvailable` in `src/App.tsx`: look for the first
overlapping availability of the spot; if it is claimed, fail with no
mutation; if it is unclaimed, open the overwrite confirmation (no
mutation until confirmed); with no overlap, create the window. -/
def handleRequestMarkAvailable (s : Store) (spotId : Int)
    (startDate endDate : Int) : MarkAvailableResult × Store :=
  match AvailabilityManager.findOverlappingAvailability spotId startDate endDate
      s.entries with
  | some overlapping =>
    if overlapping.claimedById.isSome then (.overlapWithClaimed, s)
    else (.needsConfirmation overlapping.id, s)
  | none => (.created, (Db.createAvailability s spotId startDate endDate).1)

/-- The `onConfirm` continuation of the overwrite confirmation in
`handleRequestMarkAvailable` (`src/App.tsx`): delete the overlapping
window, then create the new one. -/
def confirmOverwrite (s : Store) (overlappingId : Nat) (spotId : Int)
    (startDate endDate : Int) : Store :=
  (Db.createAvailability (Db.deleteAvailability s overlappingId)
    spotId startDate endDate).1

/-- The `onConfirm` continuation of `handleRequestUnclaim`
(`src/App.tsx`): `updateAvailability(id, { claimedById: null })`. -/
def confirmUnclaim (s : Store) (availabilityId : Nat) : Store :=
  Db.updateAvailability s availabilityId none

/-- The `onConfirm` continuation of `handleRequestUndoAvailability`
(`src/App.tsx`): `deleteAvailability(id)`, with no check of the
claimant. -/
def confirmUndoAvailability (s : Store) (availabilityId : Nat) : Store :=
  Db.deleteAvailability s availabilityId

end App

namespace OwnerView

/-- The owner view (`OwnerView` in `src/unnamed/part_005`) renders the
Undo control for an entry iff its claimant does not resolve to a known
user: `!claimedByUser` where
`claimedByUser = MOCK_USERS.find(u => u.id === avail.claimedById)`.
`users` is the list of known user ids. -/
def showsUndoButton (users : List String) (avail : Availability) : Bool :=
  (users.find? fun u => some u = avail.claimedById).isNone

end OwnerView

/-- A window covers calendar day `x` iff `x` lies in its inclusive
range. -/
def coversDay (a : Availability) (x : Int) : Prop :=
  a.startDate ≤ x ∧ x ≤ a.endDate

instance (a : Availability) (x : Int) : Decidable (coversDay a x) := by
  unfold coversDay; infer_instance

/-- The replacement windows produced by a claim-day call: the rows of
the final store that were minted during the call (their ids are at or
above the counter the store started with; under `Store.FreshIds` these
are exactly the new rows). -/
def newWindows (s : Store) (availabilityId : Nat) (dayToClaim : Int)
    (claimedById : String) : List Availability :=
  (AvailabilityManager.claimDayFinal s availabilityId dayToClaim
      claimedById).2.entries.filter fun a => s.nextId ≤ a.id

-- sanity checks on concrete inputs (Scenario A: [0,4] split at 2)
example :
    (AvailabilityManager.claimDayFinal
      ⟨[⟨7, 5, 0, 4, none⟩], 8⟩ 7 2 "userX").2.entries =
      [⟨8, 5, 2, 2, some "userX"⟩, ⟨9, 5, 0, 1, none⟩, ⟨10, 5, 3, 4, none⟩] := by
  decide

-- Scenario B input: single-day window; the code deletes and recreates
example :
    (AvailabilityManager.claimDayFinal
      ⟨[⟨0, 5, 3, 3, none⟩], 1⟩ 0 3 "userX").2.entries =
      [⟨1, 5, 3, 3, some "userX"⟩] := by
  decide

/-! ## Helper lemmas -/

/-- Setting the claimant on an id that occurs nowhere in the list is the
identity. -/
theorem map_setClaim_of_id_notin (n : Nat) (c : Option String) :
    ∀ (l : List Availability), (∀ a ∈ l, a.id ≠ n) →
      (l.map fun a => if a.id = n then { a with claimedById := c } else a) = l := by
  intro l
  induction l with
  | nil => intro _; rfl
  | cons b t ih =>
    intro h
    simp only [List.map_cons]
    rw [if_neg (h b (List.mem_cons_self _ _)),
      ih fun a ha => h a (List.mem_cons_of_mem _ ha)]

/-- Full characterization of `claimDayFinal` on a well-formed store when
all guards pass: the original row is removed, a claimed single-day row
is minted, and the before/after remainders are minted exactly when they
are nonempty; ids are drawn from the counter in creation order. -/
theorem claimDay_split (s : Store) (wid : Nat) (d : Int) (u : String)
    (w : Availability)
    (hfresh : s.FreshIds)
    (hfind : s.entries.find? (fun entry => entry.id = wid) = some w)
    (hunclaimed : w.claimedById = none)
    (hlo : w.startDate ≤ d) (hhi : d ≤ w.endDate) :
    AvailabilityManager.claimDayFinal s wid d u =
      (.ok,
        ⟨(s.entries.filter fun a => a.id ≠ wid) ++
            ⟨s.nextId, w.spotId, d, d, some u⟩ ::
            ((if w.startDate < d then
                [⟨s.nextId + 1, w.spotId, w.startDate, d - 1, none⟩] else []) ++
             (if d < w.endDate then
                [⟨(if w.startDate < d then s.nextId + 2 else s.nextId + 1),
                   w.spotId, d + 1, w.endDate, none⟩] else [])),
          s.nextId + 1 + (if w.startDate < d then 1 else 0) +
            (if d < w.endDate then 1 else 0)⟩) := by
  have hbase : ∀ a ∈ s.entries.filter (fun a => a.id ≠ wid), a.id ≠ s.nextId := by
    intro a ha
    have := hfresh a (List.mem_of_mem_filter ha)
    omega
  unfold AvailabilityManager.claimDayFinal AvailabilityManager.handleClaimDay
  rw [hfind]
  simp only [hunclaimed, Option.isSome_none, Bool.false_eq_true, if_false]
  rw [if_neg (by omega : ¬ (d < w.startDate ∨ d > w.endDate))]
  simp only [Db.deleteAvailability, Db.createAvailability, Db.updateAvailability]
  by_cases hb : w.startDate < d <;> by_cases ha : d < w.endDate <;>
    simp only [hb, ha, gt_iff_lt, if_pos, if_neg, if_true, if_false,
      List.map_append, map_setClaim_of_id_notin _ _ _ hbase, List.map_cons,
      List.map_nil, List.getLastD, List.append_assoc, List.cons_append,
      List.nil_append, List.append_nil, ite_true, ite_false] <;>
    simp [List.getLastD]

/-! ## Claim theorems -/

/-- C1 counterexample: on the store holding the single unclaimed
one-day window `{id 0, spot 5, [3,3]}`, `claimDay(0, 3, "userX")`
succeeds but the final store contains no window with the original id 0:
the code deletes the original and creates a fresh claimed row, so the
claim's "same window (same id), no window deleted and no new window
created" is false. -/
theorem claimDay_singleDay_newId_counterexample :
    (AvailabilityManager.claimDayFinal ⟨[⟨0, 5, 3, 3, none⟩], 1⟩ 0 3 "userX").1 =
        .ok ∧
    (∀ a ∈ (AvailabilityManager.claimDayFinal
        ⟨[⟨0, 5, 3, 3, none⟩], 1⟩ 0 3 "userX").2.entries, a.id ≠ 0) ∧
    (AvailabilityManager.claimDayFinal
        ⟨[⟨0, 5, 3, 3, none⟩], 1⟩ 0 3 "userX").2.entries =
      [⟨1, 5, 3, 3, some "userX"⟩] := by
  decide

/-- C1 (amended): for every unclaimed single-day window
(`startDate = endDate = day`), `claimDay(w.id, day, claimant)` yields a
store in which the only change is that the original window has been
deleted and replaced by a single freshly created window with the same
resource and day range, claimed by the claimant, carrying a new id
(delete + create, not an in-place update of the same id). -/
theorem claimDay_singleDay_spec (s : Store) (wid : Nat) (d : Int) (u : String)
    (w : Availability)
    (hfresh : s.FreshIds)
    (hfind : s.entries.find? (fun entry => entry.id = wid) = some w)
    (hunclaimed : w.claimedById = none)
    (hs : w.startDate = d) (he : w.endDate = d) :
    AvailabilityManager.claimDayFinal s wid d u =
      (.ok, ⟨(s.entries.filter fun a => a.id ≠ wid) ++
        [⟨s.nextId, w.spotId, d, d, some u⟩], s.nextId + 1⟩) ∧
    s.nextId ≠ wid := by
  have h := claimDay_split s wid d u w hfresh hfind hunclaimed (le_of_eq hs)
    (le_of_eq he.symm)
  have hmem := List.mem_of_find?_eq_some hfind
  have hwid : w.id = wid := by
    have := List.find?_some hfind
    simpa using this
  refine ⟨?_, ?_⟩
  · rw [h]
    simp [hs, he]
  · have := hfresh w hmem
    omega

/-- C1 witness: the amended theorem applied to the concrete store
holding the one-day window `{id 0, spot 5, [3,3]}`. -/
theorem claimDay_singleDay_spec_witness :
    ((⟨[⟨0, 5, 3, 3, none⟩], 1⟩ : Store).FreshIds ∧
      ([⟨0, 5, 3, 3, none⟩] : List Availability).find?
        (fun entry => entry.id = 0) = some ⟨0, 5, 3, 3, none⟩) ∧
    (AvailabilityManager.claimDayFinal ⟨[⟨0, 5, 3, 3, none⟩], 1⟩ 0 3 "userX" =
        (.ok, ⟨(([⟨0, 5, 3, 3, none⟩] : List Availability).filter
            fun a => a.id ≠ 0) ++ [⟨1, 5, 3, 3, some "userX"⟩], 2⟩) ∧
      (1 : Nat) ≠ 0) :=
  ⟨⟨by decide, by decide⟩,
    claimDay_singleDay_spec ⟨[⟨0, 5, 3, 3, none⟩], 1⟩ 0 3 "userX"
      ⟨0, 5, 3, 3, none⟩ (by decide) (by decide) rfl rfl rfl⟩

/-- C2: for every unclaimed window with `startDate < day < endDate`,
`claimDay` removes the original window (its id no longer occurs) and
appends exactly three new windows on the same resource: the claimed
`[day, day]`, the unclaimed `[startDate, day-1]`, and the unclaimed
`[day+1, endDate]`. -/
theorem claimDay_interior_split_spec (s : Store) (wid : Nat) (d : Int)
    (u : String) (w : Availability)
    (hfresh : s.FreshIds)
    (hfind : s.entries.find? (fun entry => entry.id = wid) = some w)
    (hunclaimed : w.claimedById = none)
    (hlo : w.startDate < d) (hhi : d < w.endDate) :
    AvailabilityManager.claimDayFinal s wid d u =
      (.ok, ⟨(s.entries.filter fun a => a.id ≠ wid) ++
        [⟨s.nextId, w.spotId, d, d, some u⟩,
         ⟨s.nextId + 1, w.spotId, w.startDate, d - 1, none⟩,
         ⟨s.nextId + 2, w.spotId, d + 1, w.endDate, none⟩],
        s.nextId + 3⟩) ∧
    ∀ a ∈ (AvailabilityManager.claimDayFinal s wid d u).2.entries, a.id ≠ wid := by
  have h := claimDay_split s wid d u w hfresh hfind hunclaimed (le_of_lt hlo)
    (le_of_lt hhi)
  have hmem := List.mem_of_find?_eq_some hfind
  have hwid : w.id = wid := by
    have := List.find?_some hfind
    simpa using this
  have hlt : wid < s.nextId := hwid ▸ hfresh w hmem
  have heq : AvailabilityManager.claimDayFinal s wid d u =
      (.ok, ⟨(s.entries.filter fun a => a.id ≠ wid) ++
        [⟨s.nextId, w.spotId, d, d, some u⟩,
         ⟨s.nextId + 1, w.spotId, w.startDate, d - 1, none⟩,
         ⟨s.nextId + 2, w.spotId, d + 1, w.endDate, none⟩],
        s.nextId + 3⟩) := by
    rw [h]
    simp [hlo, hhi]
  refine ⟨heq, ?_⟩
  rw [heq]
  intro a ha
  rcases List.mem_append.1 ha with hF | hN
  · exact of_decide_eq_true (List.mem_filter.1 hF).2
  · simp only [List.mem_cons, List.not_mem_nil, or_false] at hN
    rcases hN with rfl | rfl | rfl <;> simp <;> omega

/-- C2 witness: the theorem applied to the store holding the unclaimed
window `{id 7, spot 5, [0,4]}`, splitting out day 2 (Scenario A). -/
theorem claimDay_interior_split_spec_witness :
    ((⟨[⟨7, 5, 0, 4, none⟩], 8⟩ : Store).FreshIds ∧
      ([⟨7, 5, 0, 4, none⟩] : List Availability).find?
        (fun entry => entry.id = 7) = some ⟨7, 5, 0, 4, none⟩ ∧
      (0 : Int) < 2 ∧ (2 : Int) < 4) ∧
    (AvailabilityManager.claimDayFinal ⟨[⟨7, 5, 0, 4, none⟩], 8⟩ 7 2 "userX" =
        (.ok, ⟨(([⟨7, 5, 0, 4, none⟩] : List Availability).filter
            fun a => a.id ≠ 7) ++
          [⟨8, 5, 2, 2, some "userX"⟩, ⟨9, 5, 0, 1, none⟩,
           ⟨10, 5, 3, 4, none⟩], 11⟩) ∧
      ∀ a ∈ (AvailabilityManager.claimDayFinal
          ⟨[⟨7, 5, 0, 4, none⟩], 8⟩ 7 2 "userX").2.entries, a.id ≠ 7) :=
  ⟨⟨by decide, by decide, by decide, by decide⟩,
    claimDay_interior_split_spec ⟨[⟨7, 5, 0, 4, none⟩], 8⟩ 7 2 "userX"
      ⟨7, 5, 0, 4, none⟩ (by decide) (by decide) rfl (by decide) (by decide)⟩

/-- The replacement windows of a successful claim are exactly the rows
minted during the call: the claimed day plus the conditional before and
after remainders. -/
theorem newWindows_eq (s : Store) (wid : Nat) (d : Int) (u : String)
    (w : Availability)
    (hfresh : s.FreshIds)
    (hfind : s.entries.find? (fun entry => entry.id = wid) = some w)
    (hunclaimed : w.claimedById = none)
    (hlo : w.startDate ≤ d) (hhi : d ≤ w.endDate) :
    newWindows s wid d u =
      ⟨s.nextId, w.spotId, d, d, some u⟩ ::
        ((if w.startDate < d then
            [⟨s.nextId + 1, w.spotId, w.startDate, d - 1, none⟩] else []) ++
         (if d < w.endDate then
            [⟨(if w.startDate < d then s.nextId + 2 else s.nextId + 1),
               w.spotId, d + 1, w.endDate, none⟩] else [])) := by
  unfold newWindows
  rw [claimDay_split s wid d u w hfresh hfind hunclaimed hlo hhi]
  by_cases hb : w.startDate < d <;> by_cases ha : d < w.endDate <;>
    simp [hb, ha, List.filter_append, List.filter_cons] <;>
    (intro a ha' hle
     have := hfresh a ha'
     omega)

/-- C3: coverage law of the split.  For every unclaimed window and
every day within its bounds, the calendar days covered by the
replacement windows minted by `claimDay` are exactly the days covered
by the original window, and the replacement segments are pairwise
disjoint: no day is gained or lost. -/
theorem claimDay_coverage_law (s : Store) (wid : Nat) (d : Int) (u : String)
    (w : Availability)
    (hfresh : s.FreshIds)
    (hfind : s.entries.find? (fun entry => entry.id = wid) = some w)
    (hunclaimed : w.claimedById = none)
    (hlo : w.startDate ≤ d) (hhi : d ≤ w.endDate) :
    (∀ x : Int, (∃ a ∈ newWindows s wid d u, coversDay a x) ↔ coversDay w x) ∧
    List.Pairwise (fun a b => ∀ x : Int, ¬(coversDay a x ∧ coversDay b x))
      (newWindows s wid d u) := by
  rw [newWindows_eq s wid d u w hfresh hfind hunclaimed hlo hhi]
  refine ⟨fun x => ?_, ?_⟩
  · by_cases hb : w.startDate < d <;> by_cases ha : d < w.endDate <;>
      simp [hb, ha, coversDay] <;> omega
  · by_cases hb : w.startDate < d <;> by_cases ha : d < w.endDate <;>
      simp [hb, ha, coversDay, List.pairwise_cons] <;>
      and_intros <;> (intro x; omega)

/-- C3 witness: the coverage law applied to the window
`{id 7, spot 5, [0,4]}` split at day 2. -/
theorem claimDay_coverage_law_witness :
    ((⟨[⟨7, 5, 0, 4, none⟩], 8⟩ : Store).FreshIds ∧
      ([⟨7, 5, 0, 4, none⟩] : List Availability).find?
        (fun entry => entry.id = 7) = some ⟨7, 5, 0, 4, none⟩ ∧
      (0 : Int) ≤ 2 ∧ (2 : Int) ≤ 4) ∧
    ((∀ x : Int,
        (∃ a ∈ newWindows ⟨[⟨7, 5, 0, 4, none⟩], 8⟩ 7 2 "userX", coversDay a x) ↔
          coversDay ⟨7, 5, 0, 4, none⟩ x) ∧
      List.Pairwise (fun a b => ∀ x : Int, ¬(coversDay a x ∧ coversDay b x))
        (newWindows ⟨[⟨7, 5, 0, 4, none⟩], 8⟩ 7 2 "userX")) :=
  ⟨⟨by decide, by decide, by decide, by decide⟩,
    claimDay_coverage_law ⟨[⟨7, 5, 0, 4, none⟩], 8⟩ 7 2 "userX"
      ⟨7, 5, 0, 4, none⟩ (by decide) (by decide) rfl (by decide) (by decide)⟩

/-- C4: the split is not atomic.  On the store holding the unclaimed
window `{id 0, spot 5, [0,4]}`, `claimDay(0, 2, "userX")` commits each
database call separately: the trace of committed states contains a
state (the one right after the delete) in which the original window is
absent while at least one window of the final replacement set is not
yet present.  Any observer, and any failure of a later call, sees the
original gone without its replacement set. -/
theorem claimDay_split_not_atomic :
    (AvailabilityManager.handleClaimDay
        ⟨[⟨0, 5, 0, 4, none⟩], 1⟩ 0 2 "userX").1 = .ok ∧
    ∃ t ∈ (AvailabilityManager.handleClaimDay
        ⟨[⟨0, 5, 0, 4, none⟩], 1⟩ 0 2 "userX").2,
      (∀ a ∈ t.entries, a.id ≠ 0) ∧
      ∃ r ∈ newWindows ⟨[⟨0, 5, 0, 4, none⟩], 1⟩ 0 2 "userX", r ∉ t.entries := by
  decide

/-- C10: when the guards of `claimDay` fail — the window id is not
found, or the window is already claimed, or the requested day lies
outside the window's bounds — no database call is made (the trace of
committed states is empty), the store is left exactly unchanged, and
the operation does not report success. -/
theorem claimDay_guard_no_store_ops (s : Store) (wid : Nat) (d : Int)
    (u : String)
    (h : s.entries.find? (fun entry => entry.id = wid) = none ∨
      ∃ w, s.entries.find? (fun entry => entry.id = wid) = some w ∧
        (w.claimedById.isSome ∨ d < w.startDate ∨ w.endDate < d)) :
    (AvailabilityManager.handleClaimDay s wid d u).2 = [] ∧
    (AvailabilityManager.claimDayFinal s wid d u).2 = s ∧
    (AvailabilityManager.handleClaimDay s wid d u).1 ≠ .ok := by
  unfold AvailabilityManager.claimDayFinal AvailabilityManager.handleClaimDay
  rcases h with h | ⟨w, hfind, hw⟩
  · rw [h]
    simp
  · rw [hfind]
    by_cases hc : w.claimedById.isSome
    · simp [hc]
    · have hb : d < w.startDate ∨ d > w.endDate := by
        rcases hw with hcl | h' | h'
        · exact absurd hcl hc
        · exact Or.inl h'
        · exact Or.inr h'
      simp [hc, if_pos hb]

/-- C10 witness: the guard theorem applied to a store in which the
requested id does not occur. -/
theorem claimDay_guard_no_store_ops_witness :
    (([⟨3, 5, 0, 4, none⟩] : List Availability).find?
        (fun entry => entry.id = 0) = none ∨
      ∃ w, ([⟨3, 5, 0, 4, none⟩] : List Availability).find?
          (fun entry => entry.id = 0) = some w ∧
        (w.claimedById.isSome ∨ (2 : Int) < w.startDate ∨ w.endDate < 2)) ∧
    ((AvailabilityManager.handleClaimDay ⟨[⟨3, 5, 0, 4, none⟩], 4⟩ 0 2 "u").2 = [] ∧
      (AvailabilityManager.claimDayFinal ⟨[⟨3, 5, 0, 4, none⟩], 4⟩ 0 2 "u").2 =
        ⟨[⟨3, 5, 0, 4, none⟩], 4⟩ ∧
      (AvailabilityManager.handleClaimDay ⟨[⟨3, 5, 0, 4, none⟩], 4⟩ 0 2 "u").1 ≠ .ok) :=
  ⟨Or.inl (by decide),
    claimDay_guard_no_store_ops ⟨[⟨3, 5, 0, 4, none⟩], 4⟩ 0 2 "u"
      (Or.inl (by decide))⟩

/-- C9: unclaim is idempotent on unclaimed windows.  On a store with
unique row ids, confirming an unclaim of a window whose `claimedById`
is already `null` leaves the store exactly as it was: the update writes
`claimedById := null` onto a row that already carries `null`, and no
other window is touched. -/
theorem unclaim_idempotent_noop (s : Store) (w : Availability)
    (huniq : s.UniqueIds) (hmem : w ∈ s.entries)
    (hnone : w.claimedById = none) :
    App.confirmUnclaim s w.id = s := by
  unfold App.confirmUnclaim Db.updateAvailability
  have hmap : ∀ a ∈ s.entries,
      (if a.id = w.id then { a with claimedById := none } else a) = a := by
    intro a ha
    by_cases h : a.id = w.id
    · rw [if_pos h]
      have haw : a = w := List.inj_on_of_nodup_map huniq ha hmem h
      subst haw
      cases a
      simp_all
    · rw [if_neg h]
  have : (s.entries.map fun a =>
      if a.id = w.id then { a with claimedById := none } else a) = s.entries := by
    rw [List.map_congr_left hmap, List.map_id']
  rw [this]

/-- C9 witness: unclaiming the already-unclaimed window
`{id 0, spot 5, [1,2]}` leaves the store unchanged. -/
theorem unclaim_idempotent_noop_witness :
    ((⟨[⟨0, 5, 1, 2, none⟩], 1⟩ : Store).UniqueIds ∧
      (⟨0, 5, 1, 2, none⟩ : Availability) ∈
        (⟨[⟨0, 5, 1, 2, none⟩], 1⟩ : Store).entries ∧
      (⟨0, 5, 1, 2, none⟩ : Availability).claimedById = none) ∧
    App.confirmUnclaim ⟨[⟨0, 5, 1, 2, none⟩], 1⟩
        (⟨0, 5, 1, 2, none⟩ : Availability).id =
      ⟨[⟨0, 5, 1, 2, none⟩], 1⟩ :=
  ⟨⟨by decide, by decide, by decide⟩,
    unclaim_idempotent_noop ⟨[⟨0, 5, 1, 2, none⟩], 1⟩ ⟨0, 5, 1, 2, none⟩
      (by decide) (by decide) rfl⟩

/-- C5 counterexample: on the store holding the single claimed window
`{id 0, spot 5, [3,3], claimed by userX}`, confirming
`undoAvailability(0)` deletes the window: the code has no
`AlreadyClaimed` failure path and deletes unconditionally, so the
claim's "fails with AlreadyClaimed and does not delete the window" is
false. -/
theorem undo_deletes_claimed_counterexample :
    (App.confirmUndoAvailability
        ⟨[⟨0, 5, 3, 3, some "userX"⟩], 1⟩ 0).entries = [] := by
  decide

/-- C5 (amended): the undo operation itself deletes the addressed
window unconditionally — the code defines no `AlreadyClaimed` error.
The only guard is in the owner view, which offers the Undo control
exactly for windows whose claimant does not resolve to a known user: it
is shown for every unclaimed window and hidden when the claimant is a
known user. -/
theorem undoAvailability_spec (s : Store) (wid : Nat) (users : List String)
    (w : Availability)
    (_hfind : s.entries.find? (fun a => a.id = wid) = some w) :
    App.confirmUndoAvailability s wid =
      ⟨s.entries.filter fun a => a.id ≠ wid, s.nextId⟩ ∧
    (w.claimedById = none → OwnerView.showsUndoButton users w = true) ∧
    (∀ c, w.claimedById = some c → c ∈ users →
      OwnerView.showsUndoButton users w = false) := by
  refine ⟨rfl, ?_, ?_⟩
  · intro h
    unfold OwnerView.showsUndoButton
    rw [h]
    simp
  · intro c hc hcu
    unfold OwnerView.showsUndoButton
    rw [hc]
    have : (users.find? fun u => decide (some u = some c)).isSome := by
      rw [List.find?_isSome]
      exact ⟨c, hcu, by simp⟩
    rcases Option.isSome_iff_exists.1 this with ⟨x, hx⟩
    rw [hx]
    rfl

/-- C5 witness: the amended theorem applied to the claimed window
`{id 0, spot 5, [3,3], claimed by userX}` with known users
`["userX"]`. -/
theorem undoAvailability_spec_witness :
    (([⟨0, 5, 3, 3, some "userX"⟩] : List Availability).find?
        (fun a => a.id = 0) = some ⟨0, 5, 3, 3, some "userX"⟩) ∧
    (App.confirmUndoAvailability ⟨[⟨0, 5, 3, 3, some "userX"⟩], 1⟩ 0 =
        ⟨(([⟨0, 5, 3, 3, some "userX"⟩] : List Availability).filter
          fun a => a.id ≠ 0), 1⟩ ∧
      ((⟨0, 5, 3, 3, some "userX"⟩ : Availability).claimedById = none →
        OwnerView.showsUndoButton ["userX"] ⟨0, 5, 3, 3, some "userX"⟩ = true) ∧
      (∀ c, (⟨0, 5, 3, 3, some "userX"⟩ : Availability).claimedById = some c →
        c ∈ ["userX"] →
        OwnerView.showsUndoButton ["userX"] ⟨0, 5, 3, 3, some "userX"⟩ = false)) :=
  ⟨by decide,
    undoAvailability_spec ⟨[⟨0, 5, 3, 3, some "userX"⟩], 1⟩ 0 ["userX"]
      ⟨0, 5, 3, 3, some "userX"⟩ (by decide)⟩

/-- C6: whenever some window of the resource satisfies the
inclusive-range overlap test `start <= existing.end && end >=
existing.start`, `findOverlappingAvailability` returns such a window,
and precisely the first match in list order: the entries before the
returned window all fail the test, and only this single window is
reported. -/
theorem findOverlappingAvailability_spec (spotId startDate endDate : Int)
    (availabilities : List Availability)
    (hex : ∃ a ∈ availabilities,
      AvailabilityManager.overlaps spotId startDate endDate a) :
    ∃ a, AvailabilityManager.findOverlappingAvailability spotId startDate endDate
          availabilities = some a ∧
      (a.spotId = spotId ∧ startDate ≤ a.endDate ∧ endDate ≥ a.startDate) ∧
      ∃ l₁ l₂, availabilities = l₁ ++ a :: l₂ ∧
        ∀ b ∈ l₁,
          ¬ AvailabilityManager.overlaps spotId startDate endDate b := by
  obtain ⟨a0, ha0, hp⟩ := hex
  have hsome : (availabilities.find?
      (AvailabilityManager.overlaps spotId startDate endDate)).isSome :=
    List.find?_isSome.2 ⟨a0, ha0, hp⟩
  obtain ⟨a, ha⟩ := Option.isSome_iff_exists.1 hsome
  refine ⟨a, ha, ?_, ?_⟩
  · have := List.find?_some ha
    simpa [AvailabilityManager.overlaps] using this
  · obtain ⟨_, l₁, l₂, heq, hall⟩ := List.find?_eq_some.1 ha
    refine ⟨l₁, l₂, heq, fun b hb => ?_⟩
    have := hall b hb
    simpa using this

/-- C6 witness: on a list whose first entry is on another spot and
whose second entry overlaps, the resolver returns the second entry. -/
theorem findOverlappingAvailability_spec_witness :
    (∃ a ∈ [⟨0, 4, 1, 2, none⟩, ⟨1, 5, 2, 3, some "userY"⟩,
        (⟨2, 5, 3, 4, none⟩ : Availability)],
      AvailabilityManager.overlaps 5 2 2 a) ∧
    (∃ a, AvailabilityManager.findOverlappingAvailability 5 2 2
          [⟨0, 4, 1, 2, none⟩, ⟨1, 5, 2, 3, some "userY"⟩,
            ⟨2, 5, 3, 4, none⟩] = some a ∧
      (a.spotId = 5 ∧ (2 : Int) ≤ a.endDate ∧ (2 : Int) ≥ a.startDate) ∧
      ∃ l₁ l₂, [⟨0, 4, 1, 2, none⟩, ⟨1, 5, 2, 3, some "userY"⟩,
          (⟨2, 5, 3, 4, none⟩ : Availability)] = l₁ ++ a :: l₂ ∧
        ∀ b ∈ l₁, ¬ AvailabilityManager.overlaps 5 2 2 b) :=
  ⟨⟨⟨1, 5, 2, 3, some "userY"⟩, by decide, by decide⟩,
    findOverlappingAvailability_spec 5 2 2
      [⟨0, 4, 1, 2, none⟩, ⟨1, 5, 2, 3, some "userY"⟩, ⟨2, 5, 3, 4, none⟩]
      ⟨⟨1, 5, 2, 3, some "userY"⟩, by decide, by decide⟩⟩

/-- C7 counterexample: the store holds the unclaimed window
`{id 0, spot 5, [1,2]}` followed by the claimed window
`{id 1, spot 5, [2,2], claimed by userY}`; the request
`markAvailable(5, 2, 2)` overlaps the claimed window, yet the operation
does not fail — the resolver finds the unclaimed window first and
offers the overwrite confirmation instead, so the claim's "for every
request whose range overlaps an existing claimed window, the operation
fails" is false. -/
theorem markAvailable_multiOverlap_counterexample :
    AvailabilityManager.overlaps 5 2 2 ⟨1, 5, 2, 2, some "userY"⟩ = true ∧
    (⟨1, 5, 2, 2, some "userY"⟩ : Availability).claimedById.isSome = true ∧
    ⟨1, 5, 2, 2, some "userY"⟩ ∈
      (⟨[⟨0, 5, 1, 2, none⟩, ⟨1, 5, 2, 2, some "userY"⟩], 2⟩ : Store).entries ∧
    App.handleRequestMarkAvailable
        ⟨[⟨0, 5, 1, 2, none⟩, ⟨1, 5, 2, 2, some "userY"⟩], 2⟩ 5 2 2 =
      (.needsConfirmation 0,
        ⟨[⟨0, 5, 1, 2, none⟩, ⟨1, 5, 2, 2, some "userY"⟩], 2⟩) := by
  decide

/-- C7 (amended): whenever the first window overlapping the requested
range (in list order) is claimed, `markAvailable` fails with the
claimed-overlap error and performs no mutation: the store after the
call is the store before it. -/
theorem markAvailable_overlapClaimed_spec (s : Store) (spotId ns ne : Int)
    (ov : Availability)
    (hfind : AvailabilityManager.findOverlappingAvailability spotId ns ne
      s.entries = some ov)
    (hclaimed : ov.claimedById.isSome) :
    App.handleRequestMarkAvailable s spotId ns ne = (.overlapWithClaimed, s) := by
  unfold App.handleRequestMarkAvailable
  rw [hfind]
  simp [hclaimed]

/-- C7 witness: the amended theorem applied to the store of Scenario C,
where the single overlapping window is claimed. -/
theorem markAvailable_overlapClaimed_spec_witness :
    (AvailabilityManager.findOverlappingAvailability 5 2 3
        [⟨0, 5, 3, 3, some "userY"⟩] = some ⟨0, 5, 3, 3, some "userY"⟩ ∧
      (⟨0, 5, 3, 3, some "userY"⟩ : Availability).claimedById.isSome = true) ∧
    App.handleRequestMarkAvailable ⟨[⟨0, 5, 3, 3, some "userY"⟩], 1⟩ 5 2 3 =
      (.overlapWithClaimed, ⟨[⟨0, 5, 3, 3, some "userY"⟩], 1⟩) :=
  ⟨⟨by decide, by decide⟩,
    markAvailable_overlapClaimed_spec ⟨[⟨0, 5, 3, 3, some "userY"⟩], 1⟩ 5 2 3
      ⟨0, 5, 3, 3, some "userY"⟩ (by decide) (by decide)⟩

/-- C8 counterexample: the store holds the claimed window
`{id 0, spot 5, [2,2], claimed by userY}` followed by the unclaimed
window `{id 1, spot 5, [3,4]}`; the request `markAvailable(5, 2, 3)`
overlaps the unclaimed window, yet the operation returns the
claimed-overlap failure rather than a confirmation-required status —
the resolver only consults the first overlap in list order, so the
claim's "for every request overlapping an existing unclaimed window,
the operation returns a confirmation-required status" is false. -/
theorem markAvailable_unclaimedOverlap_counterexample :
    AvailabilityManager.overlaps 5 2 3 ⟨1, 5, 3, 4, none⟩ = true ∧
    (⟨1, 5, 3, 4, none⟩ : Availability).claimedById = none ∧
    ⟨1, 5, 3, 4, none⟩ ∈
      (⟨[⟨0, 5, 2, 2, some "userY"⟩, ⟨1, 5, 3, 4, none⟩], 2⟩ : Store).entries ∧
    App.handleRequestMarkAvailable
        ⟨[⟨0, 5, 2, 2, some "userY"⟩, ⟨1, 5, 3, 4, none⟩], 2⟩ 5 2 3 =
      (.overlapWithClaimed,
        ⟨[⟨0, 5, 2, 2, some "userY"⟩, ⟨1, 5, 3, 4, none⟩], 2⟩) := by
  decide

/-- C8 (amended): whenever the first window overlapping the requested
range (in list order) is unclaimed, `markAvailable` returns a
confirmation-required status carrying that window's id without mutating
the store; upon explicit confirmation the old window is deleted and the
new window `[S, E]` inserted as the only addition — the old window's
coverage outside `[S, E]` is not preserved (replace, not merge). -/
theorem markAvailable_overlapUnclaimed_spec (s : Store) (spotId ns ne : Int)
    (ov : Availability)
    (hfind : AvailabilityManager.findOverlappingAvailability spotId ns ne
      s.entries = some ov)
    (hunclaimed : ov.claimedById = none) :
    App.handleRequestMarkAvailable s spotId ns ne =
      (.needsConfirmation ov.id, s) ∧
    App.confirmOverwrite s ov.id spotId ns ne =
      ⟨(s.entries.filter fun a => a.id ≠ ov.id) ++
        [⟨s.nextId, spotId, ns, ne, none⟩], s.nextId + 1⟩ := by
  constructor
  · unfold App.handleRequestMarkAvailable
    rw [hfind]
    simp [hunclaimed]
  · rfl

/-- C8 witness: the amended theorem applied to the store of Scenario D,
where `[3,4]` unclaimed exists and `markAvailable(5, 2, 3)` is
requested; the confirmed overwrite deletes `[3,4]` and inserts `[2,3]`
(day 4 coverage lost). -/
theorem markAvailable_overlapUnclaimed_spec_witness :
    (AvailabilityManager.findOverlappingAvailability 5 2 3
        [⟨0, 5, 3, 4, none⟩] = some ⟨0, 5, 3, 4, none⟩ ∧
      (⟨0, 5, 3, 4, none⟩ : Availability).claimedById = none) ∧
    (App.handleRequestMarkAvailable ⟨[⟨0, 5, 3, 4, none⟩], 1⟩ 5 2 3 =
        (.needsConfirmation 0, ⟨[⟨0, 5, 3, 4, none⟩], 1⟩) ∧
      App.confirmOverwrite ⟨[⟨0, 5, 3, 4, none⟩], 1⟩ 0 5 2 3 =
        ⟨(([⟨0, 5, 3, 4, none⟩] : List Availability).filter
          fun a => a.id ≠ 0) ++ [⟨1, 5, 2, 3, none⟩], 2⟩) :=
  ⟨⟨by decide, by decide⟩,
    markAvailable_overlapUnclaimed_spec ⟨[⟨0, 5, 3, 4, none⟩], 1⟩ 5 2 3
      ⟨0, 5, 3, 4, none⟩ (by decide) rfl⟩
